import Mathlib

/-!
Verification of the `ann` neural-network class (`ann.hpp`) and its companion
`dense_layer` structure. The network composes a hidden and an output dense
layer, stores training data, and trains by shuffled per-sample gradient steps.

Numbers are modelled as rationals; the activation function (a logistic
sigmoid in the specification) is transcendental, so every definition and
theorem is parameterised over an arbitrary activation `act : ℚ → ℚ` — none
of the verified properties depend on its numeric form. The process-wide
pseudo-random source `std::rand()` is modelled as a stream `rands : ℕ → ℕ`
together with a counter giving the index of the next draw.
-/

/-- Modelled from the spec: one node of a dense layer (`dense_layer.hpp` is
not part of the available sources). A node owns a weight vector, a bias, the
last computed activation `output`, and the last error signal `delta`. -/
structure node where
  weights : List ℚ
  bias : ℚ
  output : ℚ
  delta : ℚ
deriving Repr, DecidableEq

/-- Modelled from the spec: a dense layer is an ordered sequence of nodes. -/
structure dense_layer where
  nodes : List node
deriving Repr, DecidableEq

/-- Modelled from the spec: the layer's exposed `output` member, the ordered
sequence of each node's output. -/
def dense_layer.output (l : dense_layer) : List ℚ :=
  l.nodes.map node.output

/-- Weighted sum of an input vector against a weight vector. -/
def dot (ws xs : List ℚ) : ℚ :=
  (List.zipWith (fun w x => w * x) ws xs).sum

/-- Modelled from the spec: derivative of the logistic sigmoid expressed in
terms of the stored output, `o * (1 - o)`. -/
def actDeriv (o : ℚ) : ℚ := o * (1 - o)

/-- Modelled from the spec: `feedforward(input)` — every node's output
becomes the activation of the weighted sum of `input` plus the bias. -/
def dense_layer.feedforward (l : dense_layer) (act : ℚ → ℚ) (input : List ℚ) : dense_layer :=
  ⟨l.nodes.map fun nd => { nd with output := act (dot nd.weights input + nd.bias) }⟩

/-- Modelled from the spec: terminal-form `backpropagate(reference)`, used on
the output layer. Node i's delta becomes
`(reference[i] - output[i]) * actDeriv output[i]`. -/
def dense_layer.backpropagate (l : dense_layer) (reference : List ℚ) : dense_layer :=
  ⟨l.nodes.enum.map fun p =>
    { p.2 with delta := (reference.getD p.1 0 - p.2.output) * actDeriv p.2.output }⟩

/-- Modelled from the spec: interior-form `backpropagate(downstream)`, used on
the hidden layer. Node i's delta becomes the downstream-weighted error sum
`Σ_k downstream.node[k].delta * downstream.node[k].weights[i]`, scaled by the
activation derivative at node i's output. -/
def dense_layer.backpropagate_from (l : dense_layer) (downstream : dense_layer) : dense_layer :=
  ⟨l.nodes.enum.map fun p =>
    { p.2 with delta :=
        ((downstream.nodes.map fun dn => dn.delta * dn.weights.getD p.1 0).sum)
          * actDeriv p.2.output }⟩

/-- Modelled from the spec: `optimize(upstream_activations, learning_rate)` —
each weight j grows by `learning_rate * delta * upstream_activations[j]`, the
bias by `learning_rate * delta`. -/
def dense_layer.optimize (l : dense_layer) (input : List ℚ) (learning_rate : ℚ) : dense_layer :=
  ⟨l.nodes.map fun nd =>
    { nd with
        weights := nd.weights.enum.map fun q =>
          q.2 + learning_rate * nd.delta * input.getD q.1 0,
        bias := nd.bias + learning_rate * nd.delta }⟩

/-- The `ann` class state: hidden layer, output layer, stored training
inputs, stored training targets, and the training order vector. -/
structure ann where
  hidden_layer_ : dense_layer
  output_layer_ : dense_layer
  train_in_ : List (List ℚ)
  train_out_ : List (List ℚ)
  train_order_ : List ℕ
deriving Repr, DecidableEq

/-- Accessor `ann::train_in`. -/
def ann.train_in (net : ann) : List (List ℚ) := net.train_in_

/-- Accessor `ann::train_out`. -/
def ann.train_out (net : ann) : List (List ℚ) := net.train_out_

/-- Accessor `ann::num_training_sets`: the size of the training order vector. -/
def ann.num_training_sets (net : ann) : ℕ := net.train_order_.length

/-- Accessor `ann::output`: the output layer's output vector. -/
def ann.output (net : ann) : List ℚ := net.output_layer_.output

/-- `ann::feedforward`: hidden layer feeds on the raw input, then the output
layer feeds on the hidden layer's freshly computed output. -/
def ann.feedforward (net : ann) (act : ℚ → ℚ) (input : List ℚ) : ann :=
  let h := net.hidden_layer_.feedforward act input
  { net with
      hidden_layer_ := h,
      output_layer_ := net.output_layer_.feedforward act h.output }

/-- `ann::backpropagate`: output layer against the reference, then the hidden
layer against the output layer's fresh deltas and weights. -/
def ann.backpropagate (net : ann) (reference : List ℚ) : ann :=
  let o := net.output_layer_.backpropagate reference
  { net with
      output_layer_ := o,
      hidden_layer_ := net.hidden_layer_.backpropagate_from o }

/-- `ann::optimize`: output layer with the hidden layer's output as upstream
activations, then the hidden layer with the raw input. -/
def ann.optimize (net : ann) (input : List ℚ) (learning_rate : ℚ) : ann :=
  { net with
      output_layer_ := net.output_layer_.optimize net.hidden_layer_.output learning_rate,
      hidden_layer_ := net.hidden_layer_.optimize input learning_rate }

/-- `ann::check_training_data_size`: if the two training sequences differ in
length, the longer is resized down to the shorter (a shrinking
`std::vector::resize` keeps the leading elements). -/
def ann.check_training_data_size (net : ann) : ann :=
  if net.train_in_.length ≠ net.train_out_.length then
    if net.train_in_.length > net.train_out_.length then
      { net with train_in_ := net.train_in_.take net.train_out_.length }
    else
      { net with train_out_ := net.train_out_.take net.train_in_.length }
  else net

/-- `ann::init_training_order`: the order vector is resized to the number of
training inputs and every position i is assigned the index i. -/
def ann.init_training_order (net : ann) : ann :=
  { net with train_order_ := List.range net.train_in_.length }

/-- The three-assignment exchange in `ann::randomize_training_order`:
`temp = v[i]; v[i] = v[r]; v[r] = temp`. -/
def listSwap (l : List ℕ) (i r : ℕ) : List ℕ :=
  (l.set i (l.getD r 0)).set r (l.getD i 0)

/-- The loop of `ann::randomize_training_order` over an order vector `l`:
position i is exchanged with partner `rands (k + i) % l.length`, one draw per
position, `k` being the index of the first unconsumed random draw. -/
def swapFold (rands : ℕ → ℕ) (k : ℕ) (l : List ℕ) : List ℕ :=
  (List.range l.length).foldl (fun acc i => listSwap acc i (rands (k + i) % l.length)) l

/-- `ann::randomize_training_order`: every position of the order vector is
exchanged with a randomly drawn partner; returns the new state and the index
of the next unconsumed random draw. -/
def ann.randomize_training_order (net : ann) (rands : ℕ → ℕ) (k : ℕ) : ann × ℕ :=
  ({ net with train_order_ := swapFold rands k net.train_order_ },
   k + net.train_order_.length)

/-- `ann::set_training_data`: copy both sequences in, truncate the longer to
the shorter, then initialise the training order. -/
def ann.set_training_data (net : ann) (tin tout : List (List ℚ)) : ann :=
  (({ net with train_in_ := tin, train_out_ := tout }).check_training_data_size).init_training_order

/-- The body of the sample loop in `ann::train`: look up the sample's input
and reference, then feedforward, backpropagate, optimize. -/
def ann.train_sample (net : ann) (act : ℚ → ℚ) (learning_rate : ℚ) (j : ℕ) : ann :=
  let input := net.train_in_.getD j []
  let reference := net.train_out_.getD j []
  (((net.feedforward act input).backpropagate reference).optimize input learning_rate)

/-- One epoch of `ann::train`: randomize the training order, then run the
sample loop over the shuffled order. -/
def ann.train_epoch (net : ann) (act : ℚ → ℚ) (rands : ℕ → ℕ) (learning_rate : ℚ) (k : ℕ) :
    ann × ℕ :=
  let q := net.randomize_training_order rands k
  (q.1.train_order_.foldl (fun m j => m.train_sample act learning_rate j) q.1, q.2)

/-- `ann::train`: `num_epochs` epochs, each shuffling the order and then
processing every sample. -/
def ann.train (net : ann) (act : ℚ → ℚ) (rands : ℕ → ℕ) (num_epochs : ℕ)
    (learning_rate : ℚ) (k : ℕ) : ann × ℕ :=
  match num_epochs with
  | 0 => (net, k)
  | e + 1 =>
    let q := net.train_epoch act rands learning_rate k
    q.1.train act rands e learning_rate q.2

/-- `ann::predict`: one forward pass, returning the new state together with
the output layer's output vector (the view the C++ reference aliases). -/
def ann.predict (net : ann) (act : ℚ → ℚ) (input : List ℚ) : ann × List ℚ :=
  let m := net.feedforward act input
  (m, m.output)

/-- The 80-character rule line used by `ann::print`. -/
def ruleLine : String :=
  String.mk (List.replicate 80 '-') ++ "\n"

/-- `ann::print(input, num_decimals, ostream)` modelled as a produced string
plus the post state. The vector formatter of `dense_layer::print` (missing
source, pure formatting) is a parameter `fmt`. An empty batch writes nothing;
otherwise each input is echoed and predicted, with a newline after every
entry but the last (the address comparison `&i < &end` in the source). -/
def ann.print (net : ann) (fmt : List ℚ → ℕ → String) (act : ℚ → ℚ)
    (input : List (List ℚ)) (num_decimals : ℕ) : String × ann :=
  if input.length = 0 then ("", net)
  else
    let step := fun (acc : String × ann) (p : ℕ × List ℚ) =>
      let pr := acc.2.predict act p.2
      (acc.1 ++ "Input:\t" ++ fmt p.2 num_decimals
             ++ "Output:\t" ++ fmt pr.2 num_decimals
             ++ (if p.1 + 1 < input.length then "\n" else ""),
       pr.1)
    let body := input.enum.foldl step (ruleLine, net)
    (body.1 ++ ruleLine ++ "\n", body.2)

/-- Definition following the claim's words, for comparison with `ann.train`:
at every epoch the order vector is first reset to the identity permutation
and only then shuffled and used for the sample loop. -/
def ann.train_reset_each_epoch (net : ann) (act : ℚ → ℚ) (rands : ℕ → ℕ)
    (num_epochs : ℕ) (learning_rate : ℚ) (k : ℕ) : ann × ℕ :=
  match num_epochs with
  | 0 => (net, k)
  | e + 1 =>
    let q := (net.init_training_order).train_epoch act rands learning_rate k
    q.1.train_reset_each_epoch act rands e learning_rate q.2

/-- A default-constructed network: empty layers, no training data. -/
def netEmpty : ann :=
  { hidden_layer_ := ⟨[]⟩, output_layer_ := ⟨[]⟩,
    train_in_ := [], train_out_ := [], train_order_ := [] }

/-- A small concrete network with two training samples, used to instantiate
universally quantified statements. -/
def netEx : ann :=
  { hidden_layer_ := ⟨[{ weights := [1/2, -1/3], bias := 1/4, output := 0, delta := 0 }]⟩,
    output_layer_ := ⟨[{ weights := [1], bias := 0, output := 0, delta := 0 }]⟩,
    train_in_ := [[0, 0], [1, 1]],
    train_out_ := [[0], [1]],
    train_order_ := [0, 1] }

/-- A network reached by loading two (empty-vector) training samples into a
default-constructed network; its order vector is the identity [0, 1]. -/
def netC4 : ann := netEmpty.set_training_data [[], []] [[], []]

/-! ## Permutation lemmas for the order-vector shuffle -/

lemma listSwap_length (l : List ℕ) (i r : ℕ) : (listSwap l i r).length = l.length := by
  simp [listSwap]

lemma listSwap_eq_ofFn (l : List ℕ) (i r : ℕ) (hi : i < l.length) (hr : r < l.length) :
    listSwap l i r =
      List.ofFn (fun t : Fin l.length => l.get ((Equiv.swap ⟨i, hi⟩ ⟨r, hr⟩) t)) := by
  apply List.ext_getElem
  · simp [listSwap]
  · intro t ht1 ht2
    have ht : t < l.length := by simpa [listSwap] using ht1
    simp only [listSwap, List.getElem_set, List.getElem_ofFn,
      List.getD_eq_getElem l 0 hi, List.getD_eq_getElem l 0 hr,
      Equiv.swap_apply_def, List.get_eq_getElem, Fin.mk.injEq]
    by_cases hti : t = i
    · subst hti
      by_cases htr : t = r
      · subst htr; simp
      · have hrt : r ≠ t := fun h => htr h.symm
        simp [htr, hrt]
    · by_cases htr : t = r
      · subst htr
        have hit : i ≠ t := fun h => hti h.symm
        simp [hti, hit]
      · have hrt : r ≠ t := fun h => htr h.symm
        have hit : i ≠ t := fun h => hti h.symm
        simp [hti, htr, hrt, hit]

lemma listSwap_perm (l : List ℕ) (i r : ℕ) (hi : i < l.length) (hr : r < l.length) :
    (listSwap l i r).Perm l := by
  rw [listSwap_eq_ofFn l i r hi hr]
  have h1 := Equiv.Perm.ofFn_comp_perm (Equiv.swap (⟨i, hi⟩ : Fin l.length) ⟨r, hr⟩) l.get
  simpa [Function.comp, List.ofFn_get] using h1

lemma foldl_listSwap_perm (g : ℕ → ℕ) (n : ℕ) :
    ∀ (is : List ℕ) (l : List ℕ), l.length = n → (∀ i ∈ is, i < n ∧ g i < n) →
      ((is.foldl (fun acc i => listSwap acc i (g i)) l)).Perm l := by
  intro is
  induction is with
  | nil => intro l _ _; exact List.Perm.refl l
  | cons i tl ih =>
    intro l hlen hmem
    have hi := hmem i (List.mem_cons_self i tl)
    have hswap : (listSwap l i (g i)).Perm l :=
      listSwap_perm l i (g i) (hlen ▸ hi.1) (hlen ▸ hi.2)
    have hlen2 : (listSwap l i (g i)).length = n := by rw [listSwap_length]; exact hlen
    have htl : ∀ j ∈ tl, j < n ∧ g j < n := fun j hj => hmem j (List.mem_cons_of_mem i hj)
    exact List.Perm.trans (ih (listSwap l i (g i)) hlen2 htl) hswap

lemma swapFold_perm (rands : ℕ → ℕ) (k : ℕ) (l : List ℕ) : (swapFold rands k l).Perm l := by
  rcases Nat.eq_zero_or_pos l.length with h0 | hpos
  · simp [swapFold, h0]
  · apply foldl_listSwap_perm (fun i => rands (k + i) % l.length) l.length _ l rfl
    intro i hi
    exact ⟨List.mem_range.mp hi, Nat.mod_lt _ hpos⟩

lemma swapFold_length (rands : ℕ → ℕ) (k : ℕ) (l : List ℕ) :
    (swapFold rands k l).length = l.length :=
  (swapFold_perm rands k l).length_eq

/-! ## Output-preservation and frame lemmas -/

lemma output_backpropagate (l : dense_layer) (reference : List ℚ) :
    (l.backpropagate reference).output = l.output := by
  simp only [dense_layer.output, dense_layer.backpropagate, List.map_map]
  have h : ∀ nds : List node,
      List.map (node.output ∘ Prod.snd) nds.enum = List.map node.output nds := by
    intro nds; rw [← List.map_map, List.enum_map_snd]
  exact h l.nodes

lemma output_backpropagate_from (l d : dense_layer) :
    (l.backpropagate_from d).output = l.output := by
  simp only [dense_layer.output, dense_layer.backpropagate_from, List.map_map]
  have h : ∀ nds : List node,
      List.map (node.output ∘ Prod.snd) nds.enum = List.map node.output nds := by
    intro nds; rw [← List.map_map, List.enum_map_snd]
  exact h l.nodes

lemma train_sample_train_in (net : ann) (act : ℚ → ℚ) (lr : ℚ) (j : ℕ) :
    (net.train_sample act lr j).train_in_ = net.train_in_ := rfl

lemma train_sample_train_out (net : ann) (act : ℚ → ℚ) (lr : ℚ) (j : ℕ) :
    (net.train_sample act lr j).train_out_ = net.train_out_ := rfl

lemma train_sample_train_order (net : ann) (act : ℚ → ℚ) (lr : ℚ) (j : ℕ) :
    (net.train_sample act lr j).train_order_ = net.train_order_ := rfl

lemma foldl_train_sample_frame (act : ℚ → ℚ) (lr : ℚ) :
    ∀ (js : List ℕ) (net : ann),
      (js.foldl (fun m j => m.train_sample act lr j) net).train_in_ = net.train_in_
      ∧ (js.foldl (fun m j => m.train_sample act lr j) net).train_out_ = net.train_out_
      ∧ (js.foldl (fun m j => m.train_sample act lr j) net).train_order_ = net.train_order_ := by
  intro js
  induction js with
  | nil => intro net; exact ⟨rfl, rfl, rfl⟩
  | cons j tl ih =>
    intro net
    have h := ih (net.train_sample act lr j)
    simpa [List.foldl_cons, train_sample_train_in, train_sample_train_out,
      train_sample_train_order] using h

lemma train_epoch_frame (net : ann) (act : ℚ → ℚ) (rands : ℕ → ℕ) (lr : ℚ) (k : ℕ) :
    ((net.train_epoch act rands lr k).1).train_in_ = net.train_in_
    ∧ ((net.train_epoch act rands lr k).1).train_out_ = net.train_out_ := by
  have h := foldl_train_sample_frame act lr
    ((net.randomize_training_order rands k).1.train_order_)
    (net.randomize_training_order rands k).1
  exact ⟨h.1, h.2.1⟩

lemma train_frame (act : ℚ → ℚ) (rands : ℕ → ℕ) (lr : ℚ) :
    ∀ (e : ℕ) (net : ann) (k : ℕ),
      ((net.train act rands e lr k).1).train_in_ = net.train_in_
      ∧ ((net.train act rands e lr k).1).train_out_ = net.train_out_ := by
  intro e
  induction e with
  | zero => intro net k; exact ⟨rfl, rfl⟩
  | succ e ih =>
    intro net k
    have h1 := train_epoch_frame net act rands lr k
    have h2 := ih (net.train_epoch act rands lr k).1 (net.train_epoch act rands lr k).2
    exact ⟨by rw [ann.train, h2.1, h1.1], by rw [ann.train, h2.2, h1.2]⟩

lemma randomize_training_order_empty (net : ann) (rands : ℕ → ℕ) (k : ℕ)
    (h : net.train_order_ = []) : net.randomize_training_order rands k = (net, k) := by
  cases net
  simp_all [ann.randomize_training_order, swapFold]

lemma train_epoch_empty (net : ann) (act : ℚ → ℚ) (rands : ℕ → ℕ) (lr : ℚ) (k : ℕ)
    (h : net.train_order_ = []) : net.train_epoch act rands lr k = (net, k) := by
  simp [ann.train_epoch, randomize_training_order_empty net rands k h, h]

/-! ## The claims -/

/-- C1: for every sample processed inside `train`, the three phases run in
this exact order with these exact data flows — a forward pass (hidden layer
feedforward on the raw input, then output layer feedforward on the hidden
layer's output), a backward pass (output layer backpropagate against the
sample's target, then hidden layer backpropagate against the output layer's
freshly computed deltas and weights), and a parameter update (output layer
optimize with the hidden layer's forward-pass output as upstream activations,
then hidden layer optimize with the sample's original raw input). -/
theorem C1_sample_phase_order (net : ann) (act : ℚ → ℚ) (lr : ℚ) (j : ℕ) :
    net.train_sample act lr j =
      (let input := net.train_in_.getD j []
       let reference := net.train_out_.getD j []
       let h1 := net.hidden_layer_.feedforward act input
       let o1 := net.output_layer_.feedforward act h1.output
       let o2 := o1.backpropagate reference
       let h2 := h1.backpropagate_from o2
       let o3 := o2.optimize h1.output lr
       let h3 := h2.optimize input lr
       { net with hidden_layer_ := h3, output_layer_ := o3 }) := by
  simp only [ann.train_sample, ann.feedforward, ann.backpropagate, ann.optimize,
    output_backpropagate_from]

/-- C5: `train` is deterministic in the random stream and the starting
state — runs from equal states with the same stream, epoch count, learning
rate and draw counter yield identical layer parameters. -/
theorem C5_deterministic (net1 net2 : ann) (act : ℚ → ℚ) (rands : ℕ → ℕ)
    (e : ℕ) (lr : ℚ) (k1 k2 : ℕ) (hnet : net1 = net2) (hk : k1 = k2) :
    ((net1.train act rands e lr k1).1).hidden_layer_ =
      ((net2.train act rands e lr k2).1).hidden_layer_
    ∧ ((net1.train act rands e lr k1).1).output_layer_ =
      ((net2.train act rands e lr k2).1).output_layer_ := by
  subst hnet
  subst hk
  exact ⟨rfl, rfl⟩

/-- C5 witness: determinism instantiated at a concrete network. -/
theorem C5_witness :
    ((netEx.train (fun x => x) (fun _ => 0) 1 (1/100) 0).1).hidden_layer_ =
      ((netEx.train (fun x => x) (fun _ => 0) 1 (1/100) 0).1).hidden_layer_
    ∧ ((netEx.train (fun x => x) (fun _ => 0) 1 (1/100) 0).1).output_layer_ =
      ((netEx.train (fun x => x) (fun _ => 0) 1 (1/100) 0).1).output_layer_ :=
  C5_deterministic netEx netEx (fun x => x) (fun _ => 0) 1 (1/100) 0 0 rfl rfl

/-- C6: `predict` performs exactly one forward pass — hidden layer on the
input, then output layer on the hidden layer's output — and returns the
output layer's output vector as it stands after that pass (the value shown
by the aliased view after the call). -/
theorem C6_predict_forward_pass (net : ann) (act : ℚ → ℚ) (input : List ℚ) :
    (net.predict act input).1 = net.feedforward act input
    ∧ (net.predict act input).2 = ((net.predict act input).1).output
    ∧ (net.predict act input).2 =
        (net.output_layer_.feedforward act
          ((net.hidden_layer_.feedforward act input).output)).output :=
  ⟨rfl, rfl, rfl⟩

/-- C8: `print` on an empty input batch writes nothing to the sink and
leaves the network unchanged, for every decimal count and formatter. -/
theorem C8_print_empty_noop (net : ann) (fmt : List ℚ → ℕ → String) (act : ℚ → ℚ)
    (num_decimals : ℕ) :
    net.print fmt act [] num_decimals = ("", net) := rfl

/-- C9: with zero training sets, `train` is safe and a no-op for any epoch
count and learning rate: neither loop body runs, no random draw is consumed,
and the state is unchanged. -/
theorem C9_train_empty_noop (net : ann) (act : ℚ → ℚ) (rands : ℕ → ℕ) (e : ℕ)
    (lr : ℚ) (k : ℕ) (h : net.num_training_sets = 0) :
    net.train act rands e lr k = (net, k) := by
  have hord : net.train_order_ = [] := List.length_eq_zero.mp h
  induction e with
  | zero => rfl
  | succ e ih =>
    have hstep : net.train act rands (e + 1) lr k =
        ((net.train_epoch act rands lr k).1).train act rands e lr
          ((net.train_epoch act rands lr k).2) := rfl
    rw [hstep, train_epoch_empty net act rands lr k hord]
    exact ih

/-- C9 witness: training an empty network five epochs changes nothing. -/
theorem C9_witness :
    netEmpty.train (fun x => x) (fun _ => 0) 5 (1/2) 3 = (netEmpty, 3) :=
  C9_train_empty_noop netEmpty (fun x => x) (fun _ => 0) 5 (1/2) 3 (by decide)

/-- C10: `train` and `predict` never modify the stored training data; the
training-order vector is also untouched by `predict`. -/
theorem C10_training_data_frame (net : ann) (act : ℚ → ℚ) (rands : ℕ → ℕ)
    (e : ℕ) (lr : ℚ) (k : ℕ) (input : List ℚ) :
    ((net.train act rands e lr k).1).train_in = net.train_in
    ∧ ((net.train act rands e lr k).1).train_out = net.train_out
    ∧ ((net.predict act input).1).train_in = net.train_in
    ∧ ((net.predict act input).1).train_out = net.train_out
    ∧ ((net.predict act input).1).train_order_ = net.train_order_ := by
  have h := train_frame act rands lr e net k
  exact ⟨h.1, h.2, rfl, rfl, rfl⟩

/-- C2: after `set_training_data` initialises the order vector, and after any
shuffle of it, `sample_order` is a permutation of `[0, num_training_sets)` —
the same multiset of indices, every index present exactly once. -/
theorem C2_sample_order_is_permutation :
    (∀ (net : ann) (tin tout : List (List ℚ)),
        ((net.set_training_data tin tout).train_order_).Perm
          (List.range (net.set_training_data tin tout).num_training_sets))
    ∧ ∀ (net : ann) (rands : ℕ → ℕ) (k : ℕ),
        net.train_order_.Perm (List.range net.num_training_sets) →
        (((net.randomize_training_order rands k).1).train_order_).Perm
          (List.range ((net.randomize_training_order rands k).1).num_training_sets) := by
  constructor
  · intro net tin tout
    simp [ann.set_training_data, ann.init_training_order, ann.num_training_sets]
  · intro net rands k h
    have hp := swapFold_perm rands k net.train_order_
    have hl : ((net.randomize_training_order rands k).1).num_training_sets =
        net.num_training_sets := by
      simp [ann.randomize_training_order, ann.num_training_sets, swapFold_length]
    rw [hl]
    exact List.Perm.trans hp h

/-- C2 witness: one shuffle of the two-sample network keeps its order a
permutation of the index range. -/
theorem C2_witness :
    (((netEx.randomize_training_order (fun _ => 0) 0).1).train_order_).Perm
      (List.range (((netEx.randomize_training_order (fun _ => 0) 0).1).num_training_sets)) :=
  C2_sample_order_is_permutation.2 netEx (fun _ => 0) 0 (by decide)

/-- C3: with input and target sequences of different lengths, the stored
training data after `set_training_data` is the length-min prefix of each
sequence and `num_training_sets` returns that minimum. -/
theorem C3_truncation (net : ann) (tin tout : List (List ℚ))
    (h : tin.length ≠ tout.length) :
    (net.set_training_data tin tout).train_in =
        tin.take (min tin.length tout.length)
    ∧ (net.set_training_data tin tout).train_out =
        tout.take (min tin.length tout.length)
    ∧ ((net.set_training_data tin tout).train_in).length = min tin.length tout.length
    ∧ ((net.set_training_data tin tout).train_out).length = min tin.length tout.length
    ∧ (net.set_training_data tin tout).num_training_sets = min tin.length tout.length := by
  by_cases hgt : tin.length > tout.length
  · have hmin : min tin.length tout.length = tout.length := by omega
    simp only [ann.set_training_data, ann.check_training_data_size,
      ann.init_training_order, ann.train_in, ann.train_out, ann.num_training_sets,
      h, hgt, if_true, ne_eq, not_false_eq_true]
    refine ⟨by rw [hmin], ?_, ?_, ?_, ?_⟩
    · rw [hmin, List.take_length]
    · simp [List.length_take]; omega
    · simp; omega
    · simp [List.length_take]; omega
  · have hlt : tin.length < tout.length := by omega
    have hmin : min tin.length tout.length = tin.length := by omega
    simp only [ann.set_training_data, ann.check_training_data_size,
      ann.init_training_order, ann.train_in, ann.train_out, ann.num_training_sets,
      h, hgt, if_false, ne_eq, not_false_eq_true, if_true]
    refine ⟨?_, by rw [hmin], ?_, ?_, ?_⟩
    · rw [hmin, List.take_length]
    · simp; omega
    · simp [List.length_take]
    · simp; omega

/-- C3 witness: one input sample against zero target samples truncates
everything to the empty training set. -/
theorem C3_witness :
    (netEmpty.set_training_data [[1]] []).train_in =
        ([[1]] : List (List ℚ)).take
          (min ([[1]] : List (List ℚ)).length ([] : List (List ℚ)).length)
    ∧ (netEmpty.set_training_data [[1]] []).train_out =
        ([] : List (List ℚ)).take
          (min ([[1]] : List (List ℚ)).length ([] : List (List ℚ)).length)
    ∧ ((netEmpty.set_training_data [[1]] []).train_in).length =
        min ([[1]] : List (List ℚ)).length ([] : List (List ℚ)).length
    ∧ ((netEmpty.set_training_data [[1]] []).train_out).length =
        min ([[1]] : List (List ℚ)).length ([] : List (List ℚ)).length
    ∧ (netEmpty.set_training_data [[1]] []).num_training_sets =
        min ([[1]] : List (List ℚ)).length ([] : List (List ℚ)).length :=
  C3_truncation netEmpty [[1]] [] (by decide)

/-- C4 counterexample: the claim says every epoch first resets the order
vector to the identity permutation and then shuffles it; the code only
shuffles in place. With two samples, the all-zero random stream and two
epochs, the code's final order differs from the reset-then-shuffle variant's. -/
theorem C4_counterexample :
    ¬ (((netC4.train (fun x => x) (fun _ => 0) 2 0 0).1).train_order_ =
       ((netC4.train_reset_each_epoch (fun x => x) (fun _ => 0) 2 0 0).1).train_order_) := by
  decide

/-- C4 (amended): at every epoch of `train`, the order vector is shuffled in
place — each position exchanged with a partner drawn as `rands (k+i) % n`,
one draw per position — starting from the previous order, of which the result
is a permutation; it is not reset to the identity permutation (that happens
only in `set_training_data`), and the draw counter advances by exactly the
number of positions. -/
theorem C4_epoch_shuffles_in_place (net : ann) (act : ℚ → ℚ) (rands : ℕ → ℕ)
    (lr : ℚ) (k e : ℕ) :
    net.train act rands (e + 1) lr k =
      ((((net.randomize_training_order rands k).1.train_order_).foldl
          (fun m j => m.train_sample act lr j)
          (net.randomize_training_order rands k).1).train
        act rands e lr (k + net.num_training_sets))
    ∧ (net.randomize_training_order rands k).1.train_order_ =
        swapFold rands k net.train_order_
    ∧ (swapFold rands k net.train_order_).Perm net.train_order_
    ∧ (net.randomize_training_order rands k).2 = k + net.num_training_sets :=
  ⟨rfl, rfl, swapFold_perm rands k net.train_order_, rfl⟩

/-- C7: after every call to `set_training_data`, the order vector is exactly
the identity permutation over the common post-truncation length. -/
theorem C7_identity_order_after_set (net : ann) (tin tout : List (List ℚ)) :
    (net.set_training_data tin tout).train_order_ =
      List.range (min tin.length tout.length) := by
  simp only [ann.set_training_data, ann.check_training_data_size,
    ann.init_training_order]
  split_ifs with h1 h2
  · congr 1
    simp [List.length_take]
    omega
  · congr 1
    simp
    omega
  · congr 1
    have heq : tin.length = tout.length := not_ne_iff.mp h1
    simp
    omega
